import Mathlib

/-!
Shallow embedding of the Multiple Wave Tracking core (detection.cpp,
tracking.cpp, wave_objects.cpp) and proofs about its specification.

Modelling conventions:
* C++ `int` is `ℤ`; `double` is `ℚ` with exact arithmetic (the spec states
  all float computations as ideal real formulas).
* The external numeric kernels that the core calls but does not define —
  `std::tan` (always applied to an angle in degrees times 3.14159265/180),
  `std::sqrt`, `cv::moments`, and the OpenCV bounding-box computation
  (`minAreaRect`/`boxPoints` on the 3-sigma-trimmed point set, display
  only) — are abstract parameters gathered in the `Ext` structure, so every
  theorem quantifies over all possible values of those kernels.
* `double → int` casts truncate toward zero, modelled by `truncQ`.
* `ℚ` division is total with `x / 0 = 0`; the source only divides by a
  quantity guarded to be nonzero on the paths the claims talk about.
* `std::sort` is modelled by `List.insertionSort`; for the claims below the
  keys compared are distinct, where every comparison sort agrees.
-/

namespace MWT

/-- Truncation toward zero of a rational, the semantics of a C++
`double` to `int` cast. -/
def truncQ (q : ℚ) : ℤ :=
  q.num.tdiv (q.den : ℤ)

/-- A pixel coordinate, cv::Point with int coordinates. -/
structure Point where
  x : ℤ
  y : ℤ
deriving DecidableEq, Repr

/-- The standard-form line A·x + B·y + C, the double[3] array
original_axis_. -/
structure Axis where
  A : ℚ
  B : ℚ
  C : ℚ
deriving DecidableEq, Repr

/-- The image moments of a contour used by KeepContour (cv::Moments
fields m00, mu11, mu20, mu02). -/
structure Moments where
  m00 : ℚ
  mu11 : ℚ
  mu20 : ℚ
  mu02 : ℚ
deriving DecidableEq, Repr

/-- External numeric kernels called by the core but defined outside it
(libm and OpenCV).  `tanDeg x` stands for the double value of
`std::tan(x*3.14159265/180.0)`; `sqrtD` for `std::sqrt`; `momentsOf` for
`cv::moments`; `boxOf` for the minimum-area-rectangle corner computation
of update_boundingbox_coors (display only). -/
structure Ext where
  tanDeg : ℚ → ℚ
  sqrtD : ℚ → ℚ
  momentsOf : List Point → Moments
  boxOf : List Point → List Point

/-- Wave object constants from wave_objects.cpp. -/
def kDisplacementThreshold : ℚ := 10

/-- Mass threshold constant (const int kMassThreshold = 1000). -/
def kMassThreshold : ℤ := 1000

/-- Search region buffer constant (const int kSearchRegionBuffer = 15). -/
def kSearchRegionBuffer : ℤ := 15

/-- Analysis frame width constant (const int kAnalysisFrameWidth = 320). -/
def kAnalysisFrameWidth : ℤ := 320

/-- Fixed wave angle constant (const double kWaveAngle = 5.0). -/
def kWaveAngle : ℚ := 5

/-- Tracking history capacity (const int kTrackingHistory = 20). -/
def kTrackingHistory : Nat := 20

/-- The Wave object of wave_objects.hpp/cpp, field for field. -/
structure Wave where
  name_ : ℤ
  points_ : List Point
  birth_ : ℤ
  axis_angle_ : ℚ
  centroid_ : Point
  centroid_vec_ : List Point
  original_axis_ : Axis
  searchroi_coors_ : List (List Point)
  boundingbox_coors_ : List Point
  displacement_ : ℚ
  max_displacement_ : ℚ
  displacement_vec_ : List ℚ
  mass_ : ℤ
  max_mass_ : ℤ
  recognized_ : Bool
  death_ : ℤ
deriving DecidableEq, Repr

/-- Wave::set_original_axis: original_axis_[0] = tan(-angle·π/180),
original_axis_[1] = -1, original_axis_[2] = cy - tan(-angle·π/180)·cx. -/
def Wave.set_original_axis (E : Ext) (w : Wave) : Wave :=
  let t := E.tanDeg (-w.axis_angle_)
  { w with original_axis_ :=
      ⟨t, -1, (w.centroid_.y : ℚ) - t * (w.centroid_.x : ℚ)⟩ }

/-- Wave::update_searchroi_coors: recomputes the four ROI corners from the
current centroid and axis angle; the int casts truncate. -/
def Wave.update_searchroi_coors (E : Ext) (w : Wave) : Wave :=
  let t := E.tanDeg w.axis_angle_
  let delta_y_left : ℤ := truncQ ((w.centroid_.x : ℚ) * t)
  let delta_y_right : ℤ :=
    truncQ (((kAnalysisFrameWidth - w.centroid_.x : ℤ) : ℚ) * t)
  let upper_left : Point :=
    ⟨0, w.centroid_.y + delta_y_left - kSearchRegionBuffer⟩
  let upper_right : Point :=
    ⟨kAnalysisFrameWidth, w.centroid_.y - delta_y_right - kSearchRegionBuffer⟩
  let lower_right : Point :=
    ⟨kAnalysisFrameWidth, w.centroid_.y - delta_y_right + kSearchRegionBuffer⟩
  let lower_left : Point :=
    ⟨0, w.centroid_.y + delta_y_left + kSearchRegionBuffer⟩
  { w with searchroi_coors_ :=
      [[upper_left, upper_right, lower_right, lower_left]] }

/-- Wave::update_death: if points_ is empty set death_ to the frame
number. -/
def Wave.update_death (frame_number : ℤ) (w : Wave) : Wave :=
  if w.points_.isEmpty then { w with death_ := frame_number } else w

/-- Wave::update_points masks the input frame with the search ROI (via
OpenCV fillPoly/bitwise_and/findNonZero) and stores the nonzero pixels;
the resulting pixel set is the model's parameter. -/
def Wave.update_points (newPts : List Point) (w : Wave) : Wave :=
  { w with points_ := newPts }

/-- The centroid value computed by Wave::update_centroid: the coordinate
means of points_ under C++ integer division, or the sentinel (-1,-1) when
points_ is empty. -/
def Wave.computeCentroid (w : Wave) : Point :=
  if w.points_.isEmpty then ⟨-1, -1⟩
  else
    let sum_x := (w.points_.map Point.x).sum
    let sum_y := (w.points_.map Point.y).sum
    ⟨sum_x.tdiv (w.points_.length : ℤ), sum_y.tdiv (w.points_.length : ℤ)⟩

/-- Wave::update_centroid: recompute the centroid, push it on
centroid_vec_, and erase the front entry if the size exceeds
kTrackingHistory. -/
def Wave.update_centroid (w : Wave) : Wave :=
  let c := w.computeCentroid
  let cv := w.centroid_vec_ ++ [c]
  let cv := if cv.length > kTrackingHistory then cv.eraseIdx 0 else cv
  { w with centroid_ := c, centroid_vec_ := cv }

/-- Wave::update_boundingbox_coors: when points_ is nonempty, store the
minimum-area-rectangle corners of the 3-sigma-trimmed point set (an
OpenCV computation, abstracted by E.boxOf); display only. -/
def Wave.update_boundingbox_coors (E : Ext) (w : Wave) : Wave :=
  if w.points_.isEmpty then w
  else { w with boundingbox_coors_ := E.boxOf w.points_ }

/-- The displacement value computed by Wave::update_displacement: the
distance |A·cx + B·cy + C| / sqrt(A² + B²) from the original axis when
the centroid is not the sentinel, otherwise the previous displacement. -/
def Wave.computeDisplacement (E : Ext) (w : Wave) : ℚ :=
  if w.centroid_.x > -1 ∧ w.centroid_.y > -1 then
    |w.original_axis_.A * (w.centroid_.x : ℚ) +
     w.original_axis_.B * (w.centroid_.y : ℚ) +
     w.original_axis_.C| /
      E.sqrtD (w.original_axis_.A ^ 2 + w.original_axis_.B ^ 2)
  else w.displacement_

/-- Wave::update_displacement: recompute displacement_, fold it into
max_displacement_, push it on displacement_vec_, and erase the front
entry if the size exceeds kTrackingHistory. -/
def Wave.update_displacement (E : Ext) (w : Wave) : Wave :=
  let d := w.computeDisplacement E
  let md := if d > w.max_displacement_ then d else w.max_displacement_
  let dv := w.displacement_vec_ ++ [d]
  let dv := if dv.length > kTrackingHistory then dv.eraseIdx 0 else dv
  { w with displacement_ := d, max_displacement_ := md,
           displacement_vec_ := dv }

/-- Wave::update_mass: mass_ is the point count (0 when empty), folded
into max_mass_. -/
def Wave.update_mass (w : Wave) : Wave :=
  let m : ℤ := if w.points_.isEmpty then 0 else (w.points_.length : ℤ)
  let mm := if m > w.max_mass_ then m else w.max_mass_
  { w with mass_ := m, max_mass_ := mm }

/-- Wave::update_recognized: a one-way latch set when both maxima reach
their thresholds. -/
def Wave.update_recognized (w : Wave) : Wave :=
  if w.recognized_ = false ∧
     kDisplacementThreshold ≤ w.max_displacement_ ∧
     kMassThreshold ≤ w.max_mass_
  then { w with recognized_ := true }
  else w

/-- The Wave constructor Wave::Wave(contour, frame_number): member-init
list followed by set_wave_name (the static id counter is the explicit
name argument here), update_centroid, set_original_axis,
update_searchroi_coors, update_boundingbox_coors, update_mass. -/
def Wave.make (E : Ext) (contour : List Point) (frame_number : ℤ)
    (name : ℤ) : Wave :=
  let w : Wave :=
    { name_ := name
      points_ := contour
      birth_ := frame_number
      axis_angle_ := kWaveAngle
      centroid_ := ⟨0, 0⟩
      centroid_vec_ := []
      original_axis_ := ⟨0, 0, 0⟩
      searchroi_coors_ := []
      boundingbox_coors_ := []
      displacement_ := 0
      max_displacement_ := 0
      displacement_vec_ := []
      mass_ := 0
      max_mass_ := 0
      recognized_ := false
      death_ := -1 }
  let w := w.update_centroid
  let w := w.set_original_axis E
  let w := w.update_searchroi_coors E
  let w := w.update_boundingbox_coors E
  w.update_mass

/-- The per-frame, per-wave inputs of the TrackWaves loop body: the pixel
set the masking step yields for this wave, the current frame number and
the total number of frames. -/
structure Step where
  pts : List Point
  frame_number : ℤ
  number_of_frames : ℤ

/-- The last-frame kill inside the TrackWaves loop: if the analysis frame
is the last of the sequence, death_ is forced to the frame number. -/
def killIfLast (frame_number number_of_frames : ℤ) (w : Wave) : Wave :=
  if frame_number = number_of_frames
  then { w with death_ := frame_number } else w

/-- The body of the tracking::TrackWaves loop for one wave: the fixed
update sequence searchroi → points → death → last-frame kill → centroid
→ boundingbox → displacement → mass → recognized. -/
def trackWaveStep (E : Ext) (st : Step) (w : Wave) : Wave :=
  let w := w.update_searchroi_coors E
  let w := w.update_points st.pts
  let w := w.update_death st.frame_number
  let w := killIfLast st.frame_number st.number_of_frames w
  let w := w.update_centroid
  let w := w.update_boundingbox_coors E
  let w := w.update_displacement E
  let w := w.update_mass
  w.update_recognized

/-- A sequence of per-frame update cycles applied to one wave. -/
def trackSteps (E : Ext) (steps : List Step) (w : Wave) : Wave :=
  steps.foldl (fun w st => trackWaveStep E st w) w

/-- tracking::TrackWaves: one update cycle for every wave of the vector;
ptsOf abstracts the mask-and-ROI intersection that update_points reads
from the shared frame. -/
def TrackWaves (E : Ext) (ptsOf : Wave → List Point)
    (frame_number number_of_frames : ℤ) (ws : List Wave) : List Wave :=
  ws.map (fun w => trackWaveStep E ⟨ptsOf w, frame_number, number_of_frames⟩ w)

/-- tracking::RemoveDeadWaves: erase every wave with death_ different
from -1, pushing the recognized ones onto the archive in encounter
order. -/
def RemoveDeadWaves : List Wave → List Wave → List Wave × List Wave
  | [], recs => ([], recs)
  | w :: rest, recs =>
    if w.death_ ≠ -1 then
      RemoveDeadWaves rest (if w.recognized_ then recs ++ [w] else recs)
    else
      let p := RemoveDeadWaves rest recs
      (w :: p.1, p.2)

/-- The y-axis projection computed in WillBeMerged and
RemoveDuplicateWaves: left_y = centroid.y + int(centroid.x ·
tan(axis_angle·π/180)). -/
def leftY (E : Ext) (w : Wave) : ℤ :=
  let delta_y_left := truncQ ((w.centroid_.x : ℚ) * E.tanDeg w.axis_angle_)
  w.centroid_.y + delta_y_left

/-- The y coordinate of searchroi_coors_[0][0] (upper-left ROI corner);
the source indexes without a bounds check, the model defaults to 0. -/
def roiY0 (w : Wave) : ℤ :=
  (((w.searchroi_coors_.getD 0 []).getD 0 ⟨0, 0⟩)).y

/-- The y coordinate of searchroi_coors_[0][3] (lower-left ROI corner);
the source indexes without a bounds check, the model defaults to 0. -/
def roiY3 (w : Wave) : ℤ :=
  (((w.searchroi_coors_.getD 0 []).getD 3 ⟨0, 0⟩)).y

/-- The shadow test of WillBeMerged and RemoveDuplicateWaves: a
projection ly falls within the left-edge vertical span of wave x's
search ROI. -/
def InShadow (ly : ℤ) (x : Wave) : Prop :=
  roiY0 x ≤ ly ∧ ly ≤ roiY3 x

instance (ly : ℤ) (x : Wave) : Decidable (InShadow ly x) := by
  unfold InShadow; infer_instance

/-- WillBeMerged (tracking.cpp, internal linkage): true when the wave's
left-edge projection falls inside the search ROI of some wave of the
vector. -/
def WillBeMerged (E : Ext) (w : Wave) (waves : List Wave) : Bool :=
  waves.any (fun x => decide (InShadow (leftY E w) x))

/-- Sorting predicate CompareAgeDesc (a.birth_ >= b.birth_). -/
def CompareAgeDesc (a b : Wave) : Prop := a.birth_ ≥ b.birth_

/-- Sorting predicate CompareAgeAsc (a.birth_ <= b.birth_). -/
def CompareAgeAsc (a b : Wave) : Prop := a.birth_ ≤ b.birth_

instance : DecidableRel CompareAgeDesc := fun a b =>
  inferInstanceAs (Decidable (a.birth_ ≥ b.birth_))

instance : DecidableRel CompareAgeAsc := fun a b =>
  inferInstanceAs (Decidable (a.birth_ ≤ b.birth_))

instance : IsTotal Wave CompareAgeAsc :=
  ⟨fun a b => le_total a.birth_ b.birth_⟩

instance : IsTrans Wave CompareAgeAsc :=
  ⟨fun _ _ _ hab hbc => le_trans hab hbc⟩

/-- The inner scan of the RemoveDuplicateWaves while loop: the first
index j (starting at the given j) whose wave's ROI shadows the
projection ly, if any. -/
def firstShadow (ly : ℤ) (ws : List Wave) (j : Nat) : Option Nat :=
  if h : j < ws.length then
    if InShadow ly (ws.get ⟨j, h⟩) then some j
    else firstShadow ly ws (j + 1)
  else none
termination_by ws.length - j

/-- The outer while loop of RemoveDuplicateWaves: at index i, scan for a
shadowing wave at some j > i; if one is found, erase index i, and — as in
the source, where the `if (j == waves.size())` test runs after the break
— also advance i when the found j equals the shrunken size. -/
def removeDupsLoop (E : Ext) (ws : List Wave) (i : Nat) : List Wave :=
  if h : i < ws.length then
    match firstShadow (leftY E (ws.get ⟨i, h⟩)) ws (i + 1) with
    | some j =>
      let ws2 := ws.eraseIdx i
      removeDupsLoop E ws2 (if j = ws2.length then i + 1 else i)
    | none => removeDupsLoop E ws (i + 1)
  else ws
termination_by ws.length - i
decreasing_by
  · have h2 : (ws.eraseIdx i).length + 1 = ws.length :=
      List.length_eraseIdx_add_one h
    split <;> omega
  · omega

/-- tracking::RemoveDuplicateWaves: sort by descending birth, run the
duplicate-erasing loop, then re-sort by ascending birth. -/
def RemoveDuplicateWaves (E : Ext) (ws : List Wave) : List Wave :=
  List.insertionSort CompareAgeAsc
    (removeDupsLoop E (List.insertionSort CompareAgeDesc ws) 0)

/-- tracking::AddNewSectionsToTrackedWaves: push each section that is not
merged into the (growing) tracked vector. -/
def AddNewSectionsToTrackedWaves (E : Ext) :
    List Wave → List Wave → List Wave
  | [], tracked => tracked
  | s :: rest, tracked =>
    if WillBeMerged E s tracked then
      AddNewSectionsToTrackedWaves E rest tracked
    else
      AddNewSectionsToTrackedWaves E rest (tracked ++ [s])

/-- The sections that AddNewSectionsToTrackedWaves actually appends, in
order: a section is kept when it is not merged with the tracked vector as
grown so far. -/
def admittedWaves (E : Ext) : List Wave → List Wave → List Wave
  | [], _ => []
  | s :: rest, tracked =>
    if WillBeMerged E s tracked then
      admittedWaves E rest tracked
    else
      s :: admittedWaves E rest (tracked ++ [s])

/-- Detection constants from detection.cpp (int kMinArea compared against
the double m00, hence modelled at ℚ). -/
def kMinArea : ℚ := 100

/-- Epsilon of the inertia test (const double eps = 1e-2). -/
def kEps : ℚ := 1 / 100

/-- Minimum inertia ratio (const double kMinInertiaRatio = 0.0). -/
def kMinInertiaRatio : ℚ := 0

/-- Maximum inertia ratio (const double kMaxInertiaRatio = 0.1). -/
def kMaxInertiaRatio : ℚ := 1 / 10

/-- KeepContour (detection.cpp, internal linkage): area test then inertia
test, with the cosmin/sinmin eigen-direction algebra of the source.  The
min_area and inertia-ratio parameters of the source are ignored by its
body, which reads the file constants, as modelled. -/
def KeepContour (E : Ext) (contour : List Point) : Bool :=
  let moms := E.momentsOf contour
  if moms.m00 < kMinArea then false
  else
    let denom := E.sqrtD ((2 * moms.mu11) ^ 2 + (moms.mu20 - moms.mu02) ^ 2)
    let ratio : ℚ :=
      if denom > kEps then
        let cosmin := (moms.mu20 - moms.mu02) / denom
        let sinmin := 2 * moms.mu11 / denom
        let cosmax := -cosmin
        let sinmax := -sinmin
        let imin := (1 / 2) * (moms.mu20 + moms.mu02) -
                    (1 / 2) * (moms.mu20 - moms.mu02) * cosmin -
                    moms.mu11 * sinmin
        let imax := (1 / 2) * (moms.mu20 + moms.mu02) -
                    (1 / 2) * (moms.mu20 - moms.mu02) * cosmax -
                    moms.mu11 * sinmax
        imin / imax
      else 1
    if ratio < kMinInertiaRatio ∨ ratio ≥ kMaxInertiaRatio then false
    else true

/-- Specification-side inertia ratio, following the spec's words: the
minimum and maximum principal second moments from the standard 2D
eigen-decomposition are (mu20 + mu02)/2 ∓ sqrt(((mu20 − mu02)/2)² +
mu11²), and that square root equals denom/2, so i_min = (mu20 + mu02)/2
− denom/2 and i_max = (mu20 + mu02)/2 + denom/2; the ratio is declared 1
when denom ≤ EPS. -/
def inertiaRatioSpec (denom : ℚ) (moms : Moments) : ℚ :=
  if denom > kEps then
    ((moms.mu20 + moms.mu02) / 2 - denom / 2) /
      ((moms.mu20 + moms.mu02) / 2 + denom / 2)
  else 1

/-- Specification-side acceptance predicate of the candidate filter:
m00 ≥ MIN_AREA and the inertia ratio in [MIN_INERTIA_RATIO,
MAX_INERTIA_RATIO). -/
def KeepContourSpec (E : Ext) (contour : List Point) : Prop :=
  let moms := E.momentsOf contour
  let denom := E.sqrtD ((2 * moms.mu11) ^ 2 + (moms.mu20 - moms.mu02) ^ 2)
  kMinArea ≤ moms.m00 ∧
  kMinInertiaRatio ≤ inertiaRatioSpec denom moms ∧
  inertiaRatioSpec denom moms < kMaxInertiaRatio

/-- detection::FilterAndConvert: walks the contour vector; an accepted
contour stays and a Wave built from it is appended to the wave vector
(the static name counter is threaded explicitly); a rejected contour is
erased from the input vector.  Returns the final contour vector, wave
vector and counter. -/
def FilterAndConvert (E : Ext) :
    List (List Point) → List Wave → ℤ → ℤ →
      List (List Point) × List Wave × ℤ
  | [], waves, _, idc => ([], waves, idc)
  | c :: rest, waves, frame_number, idc =>
    if KeepContour E c then
      let r := FilterAndConvert E rest
        (waves ++ [Wave.make E c frame_number (idc + 1)]) frame_number
        (idc + 1)
      (c :: r.1, r.2.1, r.2.2)
    else
      FilterAndConvert E rest waves frame_number idc

/-- One iteration of the per-frame driver loop of main (mwt.cpp):
TrackWaves, RemoveDeadWaves, RemoveDuplicateWaves, and — except on the
final frame — AddNewSectionsToTrackedWaves with the sections detected
this frame. -/
def ProcessFrame (E : Ext) (ptsOf : Wave → List Point)
    (sections : List Wave) (frame_number number_of_frames : ℤ)
    (tracked recs : List Wave) : List Wave × List Wave :=
  let t1 := TrackWaves E ptsOf frame_number number_of_frames tracked
  let p := RemoveDeadWaves t1 recs
  let t2 := RemoveDuplicateWaves E p.1
  let t3 := if frame_number < number_of_frames
            then AddNewSectionsToTrackedWaves E sections t2 else t2
  (t3, p.2)

/-- A concrete instantiation of the external kernels for witnesses: tan
is 0 everywhere, sqrt is the identity, moments are read off the first
point (m00 from x, mu11/mu20/mu02 zero), the bounding box is empty. -/
def extDemo : Ext where
  tanDeg := fun _ => 0
  sqrtD := fun q => q
  momentsOf := fun c => ⟨((c.getD 0 ⟨0, 0⟩).x : ℚ), 0, 0, 0⟩
  boxOf := fun _ => []

/-- A demo wave, the value of Wave.make extDemo [(100, 50)] 2 1: born at
frame 2 from a single pixel at (100, 50); its ROI left-edge span is
[35, 65]. -/
def waveA : Wave :=
  ⟨1, [⟨100, 50⟩], 2, 5, ⟨100, 50⟩, [⟨100, 50⟩], ⟨0, -1, 50⟩,
   [[⟨0, 35⟩, ⟨320, 35⟩, ⟨320, 65⟩, ⟨0, 65⟩]], [], 0, 0, [], 1, 1,
   false, -1⟩

/-- A demo wave, the value of Wave.make extDemo [(200, 40)] 7 2: born at
frame 7; its projection left_y = 40 falls inside waveA's ROI span. -/
def waveB : Wave :=
  ⟨2, [⟨200, 40⟩], 7, 5, ⟨200, 40⟩, [⟨200, 40⟩], ⟨0, -1, 40⟩,
   [[⟨0, 25⟩, ⟨320, 25⟩, ⟨320, 55⟩, ⟨0, 55⟩]], [], 0, 0, [], 1, 1,
   false, -1⟩

/-- A demo wave, the value of Wave.make extDemo [(50, 150)] 3 3: born at
frame 3; its ROI span [135, 165] and projection 150 are disjoint from
waveA's. -/
def waveC : Wave :=
  ⟨3, [⟨50, 150⟩], 3, 5, ⟨50, 150⟩, [⟨50, 150⟩], ⟨0, -1, 150⟩,
   [[⟨0, 135⟩, ⟨320, 135⟩, ⟨320, 165⟩, ⟨0, 165⟩]], [], 0, 0, [], 1, 1,
   false, -1⟩

/-- The demo wave with the recognition latch already set. -/
def waveR : Wave := { waveA with recognized_ := true }

/-- The demo wave with both maxima at their thresholds, still
unrecognized. -/
def waveU : Wave := { waveA with max_mass_ := 1000, max_displacement_ := 10 }

/-- A demo per-frame step: one point found, frame 3 of 100. -/
def stepDemo : Step := ⟨[⟨3, 4⟩], 3, 100⟩

/-- External kernels for the detection witness: moments with m00 = 100
and mu20 = 1, and a square root that is exact at the argument 1 the
inertia test feeds it. -/
def extDemo2 : Ext where
  tanDeg := fun _ => 0
  sqrtD := fun _ => 1
  momentsOf := fun _ => ⟨100, 0, 1, 0⟩
  boxOf := fun _ => []

section DemoEval

/-- With the demo kernels the tangent is 0, so every projection is just
the centroid's y coordinate. -/
lemma leftY_extDemo (w : Wave) : leftY extDemo w = w.centroid_.y := by
  simp [leftY, extDemo, truncQ]

lemma willBeMerged_BA : WillBeMerged extDemo waveB [waveA] = true := by
  simp [WillBeMerged, InShadow, leftY_extDemo, waveA, waveB, roiY0, roiY3]

lemma willBeMerged_CA : WillBeMerged extDemo waveC [waveA] = false := by
  simp [WillBeMerged, InShadow, leftY_extDemo, waveA, waveC, roiY0, roiY3]

lemma inShadow_BA : InShadow (leftY extDemo waveB) waveA := by
  rw [leftY_extDemo]
  exact ⟨by decide, by decide⟩

lemma admitted_demo :
    admittedWaves extDemo [waveC] [waveA] = [waveC] := by
  simp [admittedWaves, willBeMerged_CA]

lemma willBeMerged_nil (E : Ext) (w : Wave) :
    WillBeMerged E w [] = false := rfl

lemma addNew_demo :
    AddNewSectionsToTrackedWaves extDemo [waveA, waveB] [] = [waveA] := by
  simp [AddNewSectionsToTrackedWaves, willBeMerged_nil, willBeMerged_BA]

end DemoEval

section ProjectionLemmas

variable (E : Ext) (w : Wave)

@[simp] lemma recognized_update_searchroi :
    (w.update_searchroi_coors E).recognized_ = w.recognized_ := rfl

@[simp] lemma recognized_update_points (ps : List Point) :
    (w.update_points ps).recognized_ = w.recognized_ := rfl

@[simp] lemma recognized_update_death (fn : ℤ) :
    (w.update_death fn).recognized_ = w.recognized_ := by
  unfold Wave.update_death; split <;> rfl

@[simp] lemma recognized_update_centroid :
    (w.update_centroid).recognized_ = w.recognized_ := rfl

@[simp] lemma recognized_update_boundingbox :
    (w.update_boundingbox_coors E).recognized_ = w.recognized_ := by
  unfold Wave.update_boundingbox_coors; split <;> rfl

@[simp] lemma recognized_update_displacement :
    (w.update_displacement E).recognized_ = w.recognized_ := rfl

@[simp] lemma recognized_update_mass :
    (w.update_mass).recognized_ = w.recognized_ := rfl

lemma recognized_update_recognized_of_true (h : w.recognized_ = true) :
    (w.update_recognized).recognized_ = true := by
  unfold Wave.update_recognized
  split <;> simp [h]

@[simp] lemma death_update_searchroi :
    (w.update_searchroi_coors E).death_ = w.death_ := rfl

@[simp] lemma death_update_points (ps : List Point) :
    (w.update_points ps).death_ = w.death_ := rfl

@[simp] lemma death_update_centroid :
    (w.update_centroid).death_ = w.death_ := rfl

@[simp] lemma death_update_boundingbox :
    (w.update_boundingbox_coors E).death_ = w.death_ := by
  unfold Wave.update_boundingbox_coors; split <;> rfl

@[simp] lemma death_update_displacement :
    (w.update_displacement E).death_ = w.death_ := rfl

@[simp] lemma death_update_mass :
    (w.update_mass).death_ = w.death_ := rfl

@[simp] lemma death_update_recognized :
    (w.update_recognized).death_ = w.death_ := by
  unfold Wave.update_recognized; split <;> rfl

lemma death_update_death (fn : ℤ) :
    (w.update_death fn).death_ = if w.points_.isEmpty then fn else w.death_ := by
  unfold Wave.update_death; split <;> simp_all

@[simp] lemma centroid_vec_update_searchroi :
    (w.update_searchroi_coors E).centroid_vec_ = w.centroid_vec_ := rfl

@[simp] lemma centroid_vec_update_points (ps : List Point) :
    (w.update_points ps).centroid_vec_ = w.centroid_vec_ := rfl

@[simp] lemma centroid_vec_update_death (fn : ℤ) :
    (w.update_death fn).centroid_vec_ = w.centroid_vec_ := by
  unfold Wave.update_death; split <;> rfl

@[simp] lemma centroid_vec_update_boundingbox :
    (w.update_boundingbox_coors E).centroid_vec_ = w.centroid_vec_ := by
  unfold Wave.update_boundingbox_coors; split <;> rfl

@[simp] lemma centroid_vec_update_displacement :
    (w.update_displacement E).centroid_vec_ = w.centroid_vec_ := rfl

@[simp] lemma centroid_vec_update_mass :
    (w.update_mass).centroid_vec_ = w.centroid_vec_ := rfl

@[simp] lemma centroid_vec_update_recognized :
    (w.update_recognized).centroid_vec_ = w.centroid_vec_ := by
  unfold Wave.update_recognized; split <;> rfl

@[simp] lemma displacement_vec_update_searchroi :
    (w.update_searchroi_coors E).displacement_vec_ = w.displacement_vec_ := rfl

@[simp] lemma displacement_vec_update_points (ps : List Point) :
    (w.update_points ps).displacement_vec_ = w.displacement_vec_ := rfl

@[simp] lemma displacement_vec_update_death (fn : ℤ) :
    (w.update_death fn).displacement_vec_ = w.displacement_vec_ := by
  unfold Wave.update_death; split <;> rfl

@[simp] lemma displacement_vec_update_centroid :
    (w.update_centroid).displacement_vec_ = w.displacement_vec_ := rfl

@[simp] lemma displacement_vec_update_boundingbox :
    (w.update_boundingbox_coors E).displacement_vec_ = w.displacement_vec_ := by
  unfold Wave.update_boundingbox_coors; split <;> rfl

@[simp] lemma displacement_vec_update_mass :
    (w.update_mass).displacement_vec_ = w.displacement_vec_ := rfl

@[simp] lemma displacement_vec_update_recognized :
    (w.update_recognized).displacement_vec_ = w.displacement_vec_ := by
  unfold Wave.update_recognized; split <;> rfl

end ProjectionLemmas

@[simp] lemma centroid_vec_kill (fn nf : ℤ) (w : Wave) :
    (killIfLast fn nf w).centroid_vec_ = w.centroid_vec_ := by
  unfold killIfLast; split <;> rfl

@[simp] lemma displacement_vec_kill (fn nf : ℤ) (w : Wave) :
    (killIfLast fn nf w).displacement_vec_ = w.displacement_vec_ := by
  unfold killIfLast; split <;> rfl

@[simp] lemma recognized_kill (fn nf : ℤ) (w : Wave) :
    (killIfLast fn nf w).recognized_ = w.recognized_ := by
  unfold killIfLast; split <;> rfl

lemma recognized_trackWaveStep (E : Ext) (st : Step) (w : Wave)
    (h : w.recognized_ = true) :
    (trackWaveStep E st w).recognized_ = true := by
  unfold trackWaveStep
  apply recognized_update_recognized_of_true
  simp [h]

/-- C1.  Recognition is a one-way latch: once `recognized_` is true it
stays true across any sequence of per-frame update cycles (each cycle
runs update_searchroi_coors, update_points, update_death, the last-frame
kill, update_centroid, update_boundingbox_coors, update_displacement,
update_mass, and update_recognized), regardless of how mass and
displacement evolve. -/
theorem C1_recognized_monotonic (E : Ext) (steps : List Step) (w : Wave)
    (h : w.recognized_ = true) :
    (trackSteps E steps w).recognized_ = true := by
  induction steps generalizing w with
  | nil => exact h
  | cons st rest ih =>
    exact ih _ (recognized_trackWaveStep E st w h)

/-- Witness for C1 at the recognized demo wave and one concrete step. -/
theorem C1_witness :
    (trackSteps extDemo [stepDemo] waveR).recognized_ = true :=
  C1_recognized_monotonic extDemo [stepDemo] waveR rfl

/-- C6.  For an unrecognized wave, update_recognized sets the latch
exactly when both max_mass_ ≥ 1000 and max_displacement_ ≥ 10. -/
theorem C6_recognition_requires_both (w : Wave)
    (h : w.recognized_ = false) :
    (w.update_recognized).recognized_ = true ↔
      kMassThreshold ≤ w.max_mass_ ∧
      kDisplacementThreshold ≤ w.max_displacement_ := by
  unfold Wave.update_recognized
  constructor
  · intro ht
    by_contra hc
    rw [if_neg] at ht
    · exact absurd (h ▸ ht) (by simp)
    · rintro ⟨-, hd2, hm2⟩
      exact hc ⟨hm2, hd2⟩
  · rintro ⟨hm, hd⟩
    rw [if_pos ⟨h, hd, hm⟩]

/-- Witness for C6: the demo wave at both thresholds becomes
recognized. -/
theorem C6_witness : (waveU.update_recognized).recognized_ = true :=
  (C6_recognition_requires_both waveU rfl).mpr (by constructor <;> decide)

lemma removeDeadWaves_eq (tracked recs : List Wave) :
    RemoveDeadWaves tracked recs =
      (tracked.filter (fun w => w.death_ = -1),
       recs ++ tracked.filter (fun w => w.death_ ≠ -1 && w.recognized_)) := by
  induction tracked generalizing recs with
  | nil => simp [RemoveDeadWaves]
  | cons w rest ih =>
    by_cases hd : w.death_ = -1
    · simp [RemoveDeadWaves, hd, ih]
    · by_cases hr : w.recognized_ = true
      · simp [RemoveDeadWaves, hd, hr, ih]
      · simp only [Bool.not_eq_true] at hr
        simp [RemoveDeadWaves, hd, hr, ih]

/-- C8.  RemoveDeadWaves partitions the tracked vector: the survivors are
exactly the waves with death_ = -1 in their original relative order, and
the archive is its previous contents followed by the removed recognized
waves in removal order; removed unrecognized waves are dropped. -/
theorem C8_remove_dead_partition (tracked recs : List Wave) :
    RemoveDeadWaves tracked recs =
      (tracked.filter (fun w => w.death_ = -1),
       recs ++ tracked.filter (fun w => w.death_ ≠ -1 && w.recognized_)) :=
  removeDeadWaves_eq tracked recs

@[simp] lemma centroid_vec_set_original_axis (E : Ext) (w : Wave) :
    (w.set_original_axis E).centroid_vec_ = w.centroid_vec_ := rfl

@[simp] lemma displacement_vec_set_original_axis (E : Ext) (w : Wave) :
    (w.set_original_axis E).displacement_vec_ = w.displacement_vec_ := rfl

lemma centroid_vec_update_centroid_shape (w : Wave)
    (h : w.centroid_vec_.length ≤ kTrackingHistory) :
    (w.update_centroid).centroid_vec_ =
      (if w.centroid_vec_.length = kTrackingHistory
       then w.centroid_vec_.eraseIdx 0 else w.centroid_vec_) ++
        [w.computeCentroid] := by
  unfold Wave.update_centroid
  by_cases he : w.centroid_vec_.length = kTrackingHistory
  · have hgt : (w.centroid_vec_ ++ [w.computeCentroid]).length >
        kTrackingHistory := by simp [he]
    have hlt : 0 < w.centroid_vec_.length := by
      rw [he]; decide
    simp [hgt, he, List.eraseIdx_append_of_lt_length hlt]
  · have hle : ¬ (w.centroid_vec_ ++ [w.computeCentroid]).length >
        kTrackingHistory := by
      simp only [List.length_append, List.length_singleton]
      unfold kTrackingHistory at *
      omega
    simp [hle, he]
    intro hcon
    exact absurd hcon (by
      simp only [List.length_append, List.length_singleton] at hle
      exact hle)

lemma displacement_vec_update_displacement_shape (E : Ext) (w : Wave)
    (h : w.displacement_vec_.length ≤ kTrackingHistory) :
    (w.update_displacement E).displacement_vec_ =
      (if w.displacement_vec_.length = kTrackingHistory
       then w.displacement_vec_.eraseIdx 0 else w.displacement_vec_) ++
        [w.computeDisplacement E] := by
  unfold Wave.update_displacement
  by_cases he : w.displacement_vec_.length = kTrackingHistory
  · have hgt : (w.displacement_vec_ ++ [w.computeDisplacement E]).length >
        kTrackingHistory := by simp [he]
    have hlt : 0 < w.displacement_vec_.length := by
      rw [he]; decide
    simp [hgt, he, List.eraseIdx_append_of_lt_length hlt]
  · have hle : ¬ (w.displacement_vec_ ++ [w.computeDisplacement E]).length >
        kTrackingHistory := by
      simp only [List.length_append, List.length_singleton]
      unfold kTrackingHistory at *
      omega
    simp [hle, he]
    intro hcon
    exact absurd hcon (by
      simp only [List.length_append, List.length_singleton] at hle
      exact hle)

lemma length_centroid_vec_update_centroid (w : Wave)
    (h : w.centroid_vec_.length ≤ kTrackingHistory) :
    (w.update_centroid).centroid_vec_.length =
      min (w.centroid_vec_.length + 1) kTrackingHistory := by
  rw [centroid_vec_update_centroid_shape w h]
  by_cases he : w.centroid_vec_.length = kTrackingHistory
  · have h0 : 0 < w.centroid_vec_.length := by rw [he]; decide
    have := List.length_eraseIdx_add_one h0
    simp only [he, if_pos, List.length_append, List.length_singleton]
    unfold kTrackingHistory at *
    omega
  · simp only [he, if_neg, List.length_append, List.length_singleton,
      Bool.false_eq_true, if_false]
    unfold kTrackingHistory at *
    omega

lemma length_displacement_vec_update_displacement (E : Ext) (w : Wave)
    (h : w.displacement_vec_.length ≤ kTrackingHistory) :
    (w.update_displacement E).displacement_vec_.length =
      min (w.displacement_vec_.length + 1) kTrackingHistory := by
  rw [displacement_vec_update_displacement_shape E w h]
  by_cases he : w.displacement_vec_.length = kTrackingHistory
  · have h0 : 0 < w.displacement_vec_.length := by rw [he]; decide
    have := List.length_eraseIdx_add_one h0
    simp only [he, if_pos, List.length_append, List.length_singleton]
    unfold kTrackingHistory at *
    omega
  · simp only [he, if_neg, List.length_append, List.length_singleton,
      Bool.false_eq_true, if_false]
    unfold kTrackingHistory at *
    omega

lemma histlen_trackWaveStep (E : Ext) (st : Step) (w : Wave)
    (hc : w.centroid_vec_.length ≤ kTrackingHistory)
    (hd : w.displacement_vec_.length ≤ kTrackingHistory) :
    (trackWaveStep E st w).centroid_vec_.length =
      min (w.centroid_vec_.length + 1) kTrackingHistory ∧
    (trackWaveStep E st w).displacement_vec_.length =
      min (w.displacement_vec_.length + 1) kTrackingHistory := by
  unfold trackWaveStep
  constructor
  · simp only [centroid_vec_update_recognized, centroid_vec_update_mass,
      centroid_vec_update_displacement, centroid_vec_update_boundingbox]
    rw [length_centroid_vec_update_centroid]
    · simp only [centroid_vec_kill, centroid_vec_update_death,
        centroid_vec_update_points, centroid_vec_update_searchroi]
    · simp only [centroid_vec_kill, centroid_vec_update_death,
        centroid_vec_update_points, centroid_vec_update_searchroi]
      exact hc
  · simp only [displacement_vec_update_recognized,
      displacement_vec_update_mass]
    rw [length_displacement_vec_update_displacement]
    · simp only [displacement_vec_update_boundingbox,
        displacement_vec_update_centroid, displacement_vec_kill,
        displacement_vec_update_death, displacement_vec_update_points,
        displacement_vec_update_searchroi]
    · simp only [displacement_vec_update_boundingbox,
        displacement_vec_update_centroid, displacement_vec_kill,
        displacement_vec_update_death, displacement_vec_update_points,
        displacement_vec_update_searchroi]
      exact hd

lemma trackSteps_histlen (E : Ext) (steps : List Step) (w : Wave)
    (hc : w.centroid_vec_.length ≤ kTrackingHistory)
    (hd : w.displacement_vec_.length ≤ kTrackingHistory) :
    (trackSteps E steps w).centroid_vec_.length =
      min (w.centroid_vec_.length + steps.length) kTrackingHistory ∧
    (trackSteps E steps w).displacement_vec_.length =
      min (w.displacement_vec_.length + steps.length) kTrackingHistory := by
  induction steps generalizing w with
  | nil => simp [trackSteps]; omega
  | cons st rest ih =>
    have hstep := histlen_trackWaveStep E st w hc hd
    have hc2 : (trackWaveStep E st w).centroid_vec_.length ≤
        kTrackingHistory := by rw [hstep.1]; omega
    have hd2 : (trackWaveStep E st w).displacement_vec_.length ≤
        kTrackingHistory := by rw [hstep.2]; omega
    have hrest := ih (trackWaveStep E st w) hc2 hd2
    have e1 : trackSteps E (st :: rest) w =
        trackSteps E rest (trackWaveStep E st w) := rfl
    rw [e1, hrest.1, hrest.2] at *
    rw [hstep.1, hstep.2]
    unfold kTrackingHistory at *
    constructor <;> [skip; skip] <;> simp only [List.length_cons] <;> omega

lemma make_histlen (E : Ext) (contour : List Point) (fn name : ℤ) :
    (Wave.make E contour fn name).centroid_vec_.length = 1 ∧
    (Wave.make E contour fn name).displacement_vec_.length = 0 := by
  unfold Wave.make
  constructor
  · simp only [centroid_vec_update_mass, centroid_vec_update_boundingbox,
      centroid_vec_update_searchroi, centroid_vec_set_original_axis]
    simp [Wave.update_centroid, kTrackingHistory]
  · simp only [displacement_vec_update_mass,
      displacement_vec_update_boundingbox,
      displacement_vec_update_searchroi, displacement_vec_set_original_axis,
      displacement_vec_update_centroid]
    rfl

/-- C7.  Bounded history: a single update_centroid (resp.
update_displacement) on a history within capacity appends the new value
at the back, evicting exactly the front entry when the history is full;
and starting from a freshly constructed wave, after any sequence of
update cycles the centroid history has min(1 + n, 20) entries and the
displacement history min(n, 20) — in particular exactly 20 once more
than 20 cycles have run. -/
theorem C7_bounded_history (E : Ext) :
    (∀ w : Wave, w.centroid_vec_.length ≤ kTrackingHistory →
      (w.update_centroid).centroid_vec_ =
        (if w.centroid_vec_.length = kTrackingHistory
         then w.centroid_vec_.eraseIdx 0 else w.centroid_vec_) ++
          [w.computeCentroid]) ∧
    (∀ w : Wave, w.displacement_vec_.length ≤ kTrackingHistory →
      (w.update_displacement E).displacement_vec_ =
        (if w.displacement_vec_.length = kTrackingHistory
         then w.displacement_vec_.eraseIdx 0 else w.displacement_vec_) ++
          [w.computeDisplacement E]) ∧
    (∀ (contour : List Point) (fn name : ℤ) (steps : List Step),
      (trackSteps E steps (Wave.make E contour fn name)).centroid_vec_.length =
        min (1 + steps.length) kTrackingHistory ∧
      (trackSteps E steps
          (Wave.make E contour fn name)).displacement_vec_.length =
        min steps.length kTrackingHistory) := by
  refine ⟨fun w h => centroid_vec_update_centroid_shape w h,
          fun w h => displacement_vec_update_displacement_shape E w h,
          fun contour fn name steps => ?_⟩
  have hm := make_histlen E contour fn name
  have h := trackSteps_histlen E steps (Wave.make E contour fn name)
    (by rw [hm.1]; decide) (by rw [hm.2]; decide)
  rw [hm.1] at h
  rw [hm.2] at h
  simpa using h

/-- Witness for C7: after 25 cycles the centroid history holds exactly 20
entries, and one update on the demo wave appends its new centroid. -/
theorem C7_witness :
    (trackSteps extDemo (List.replicate 25 stepDemo)
        (Wave.make extDemo [⟨100, 50⟩] 2 1)).centroid_vec_.length = 20 ∧
    (waveA.update_centroid).centroid_vec_ =
      (if waveA.centroid_vec_.length = kTrackingHistory
       then waveA.centroid_vec_.eraseIdx 0 else waveA.centroid_vec_) ++
        [waveA.computeCentroid] := by
  constructor
  · have h := ((C7_bounded_history extDemo).2.2 [⟨100, 50⟩] 2 1
      (List.replicate 25 stepDemo)).1
    simpa [kTrackingHistory] using h
  · exact (C7_bounded_history extDemo).1 waveA (by decide)

lemma willBeMerged_append (E : Ext) (w : Wave) (t1 t2 : List Wave) :
    WillBeMerged E w (t1 ++ t2) =
      (WillBeMerged E w t1 || WillBeMerged E w t2) := by
  simp [WillBeMerged, List.any_append]

lemma addNew_eq_append (E : Ext) (sections : List Wave) :
    ∀ tracked, AddNewSectionsToTrackedWaves E sections tracked =
      tracked ++ admittedWaves E sections tracked := by
  induction sections with
  | nil => intro tracked; simp [AddNewSectionsToTrackedWaves, admittedWaves]
  | cons s rest ih =>
    intro tracked
    unfold AddNewSectionsToTrackedWaves admittedWaves
    by_cases hm : WillBeMerged E s tracked
    · simp [hm, ih]
    · simp only [Bool.not_eq_true] at hm
      simp [hm, ih (tracked ++ [s])]

lemma admitted_sublist (E : Ext) (sections : List Wave) :
    ∀ tracked, (admittedWaves E sections tracked).Sublist sections := by
  induction sections with
  | nil => intro tracked; simp [admittedWaves]
  | cons s rest ih =>
    intro tracked
    unfold admittedWaves
    by_cases hm : WillBeMerged E s tracked
    · simp only [hm, if_true]
      exact (ih tracked).cons s
    · simp only [Bool.not_eq_true] at hm
      simp only [hm, Bool.false_eq_true, if_false]
      exact (ih (tracked ++ [s])).cons₂ s

lemma admitted_not_merged (E : Ext) (sections : List Wave) :
    ∀ tracked, ∀ x ∈ admittedWaves E sections tracked,
      WillBeMerged E x tracked = false := by
  induction sections with
  | nil => intro tracked x hx; simp [admittedWaves] at hx
  | cons s rest ih =>
    intro tracked x hx
    unfold admittedWaves at hx
    by_cases hm : WillBeMerged E s tracked
    · simp only [hm, if_true] at hx
      exact ih tracked x hx
    · simp only [Bool.not_eq_true] at hm
      simp only [hm, Bool.false_eq_true, if_false, List.mem_cons] at hx
      rcases hx with rfl | hx
      · exact hm
      · have h2 := ih (tracked ++ [s]) x hx
        rw [willBeMerged_append] at h2
        exact (Bool.or_eq_false_iff.mp h2).1

lemma mem_admitted_of_not_merged_final (E : Ext) (sections : List Wave) :
    ∀ tracked, ∀ s ∈ sections,
      WillBeMerged E s (AddNewSectionsToTrackedWaves E sections tracked) =
        false →
      s ∈ admittedWaves E sections tracked := by
  induction sections with
  | nil => intro tracked s hs; simp at hs
  | cons s0 rest ih =>
    intro tracked s hs hfin
    unfold AddNewSectionsToTrackedWaves at hfin
    unfold admittedWaves
    by_cases hm : WillBeMerged E s0 tracked
    · simp only [hm, if_true] at hfin ⊢
      rcases List.mem_cons.mp hs with rfl | hs2
      · exfalso
        rw [addNew_eq_append, willBeMerged_append, hm] at hfin
        simp at hfin
      · exact ih tracked s hs2 hfin
    · simp only [Bool.not_eq_true] at hm
      simp only [hm, Bool.false_eq_true, if_false] at hfin ⊢
      rcases List.mem_cons.mp hs with rfl | hs2
      · exact List.mem_cons_self _ _
      · exact List.mem_cons_of_mem s0 (ih (tracked ++ [s0]) s hs2 hfin)

/-- C9.  Admission: AddNewSectionsToTrackedWaves appends exactly the
admitted sections after the tracked vector; the admitted sections are a
subsequence of the input sections (encounter order); every admitted
section fails the merge test against the incoming tracked vector; and
every section that fails the merge test even against the final grown
vector is admitted. -/
theorem C9_admission_rejection (E : Ext) (sections tracked : List Wave) :
    AddNewSectionsToTrackedWaves E sections tracked =
      tracked ++ admittedWaves E sections tracked ∧
    (admittedWaves E sections tracked).Sublist sections ∧
    (∀ s ∈ admittedWaves E sections tracked,
       WillBeMerged E s tracked = false) ∧
    (∀ s ∈ sections,
       WillBeMerged E s (AddNewSectionsToTrackedWaves E sections tracked) =
           false →
         s ∈ admittedWaves E sections tracked) :=
  ⟨addNew_eq_append E sections tracked, admitted_sublist E sections tracked,
   admitted_not_merged E sections tracked,
   mem_admitted_of_not_merged_final E sections tracked⟩

/-- Witness for C9: the non-overlapping demo candidate is admitted and
does not merge with the tracked demo wave. -/
theorem C9_witness : WillBeMerged extDemo waveC [waveA] = false :=
  (C9_admission_rejection extDemo [waveC] [waveA]).2.2.1 waveC
    (by rw [admitted_demo]; exact List.mem_cons_self _ _)

lemma addNew_all_kept (E : Ext) (sections : List Wave) :
    ∀ tracked,
      (∀ t ∈ tracked, ∀ s ∈ sections, ¬ InShadow (leftY E s) t) →
      List.Pairwise (fun a b => ¬ InShadow (leftY E b) a) sections →
      AddNewSectionsToTrackedWaves E sections tracked =
        tracked ++ sections := by
  induction sections with
  | nil => intro tracked _ _; simp [AddNewSectionsToTrackedWaves]
  | cons s rest ih =>
    intro tracked h1 hp
    have hm : WillBeMerged E s tracked = false := by
      simp only [WillBeMerged, List.any_eq_false, decide_eq_true_eq]
      intro t ht
      exact h1 t ht s (List.mem_cons_self s rest)
    unfold AddNewSectionsToTrackedWaves
    simp only [hm, Bool.false_eq_true, if_false]
    have h1b : ∀ t ∈ tracked ++ [s], ∀ x ∈ rest, ¬ InShadow (leftY E x) t := by
      intro t ht x hx
      rcases List.mem_append.mp ht with ht2 | ht2
      · exact h1 t ht2 x (List.mem_cons_of_mem s hx)
      · rcases List.mem_singleton.mp ht2 with rfl
        exact (List.pairwise_cons.mp hp).1 x hx
    rw [ih (tracked ++ [s]) h1b (List.pairwise_cons.mp hp).2]
    simp

/-- Counterexample to C10 as stated: with an empty tracked vector, the
section vector [waveA, waveB] is not appended unchanged, because waveB's
projection falls inside waveA's ROI and waveA has already been admitted
when waveB is tested. -/
theorem C10_counterexample :
    AddNewSectionsToTrackedWaves extDemo [waveA, waveB] [] ≠
      [waveA, waveB] := by
  rw [addNew_demo]
  simp

lemma pairwise_of_admitted_eq (E : Ext) (sections : List Wave) :
    ∀ tracked, admittedWaves E sections tracked = sections →
      List.Pairwise (fun a b => ¬ InShadow (leftY E b) a) sections := by
  induction sections with
  | nil => intro tracked _; exact List.Pairwise.nil
  | cons s rest ih =>
    intro tracked heq
    unfold admittedWaves at heq
    by_cases hm : WillBeMerged E s tracked
    · rw [if_pos hm] at heq
      have hsub := (admitted_sublist E rest tracked).length_le
      rw [heq] at hsub
      simp at hsub
    · rw [if_neg hm] at heq
      simp only [List.cons.injEq, true_and] at heq
      refine List.pairwise_cons.mpr ⟨?_, ih (tracked ++ [s]) heq⟩
      intro b hb
      have hnm : WillBeMerged E b (tracked ++ [s]) = false :=
        admitted_not_merged E rest (tracked ++ [s]) b
          (by rw [heq]; exact hb)
      rw [willBeMerged_append] at hnm
      have h2 := (Bool.or_eq_false_iff.mp hnm).2
      simp only [WillBeMerged, List.any_cons, List.any_nil,
        Bool.or_false] at h2
      exact of_decide_eq_false h2

/-- C10 (amended).  WillBeMerged against an empty vector is false for
every candidate, so with an empty tracked vector the first candidate is
always appended; but the tracked vector grows during admission, so later
candidates are tested against the previously admitted ones, and all
candidates are appended in input order exactly when no candidate's
projection falls inside an earlier candidate's ROI span (both
directions of the equivalence). -/
theorem C10_empty_tracked_amended (E : Ext) :
    (∀ w : Wave, WillBeMerged E w [] = false) ∧
    (∀ (s : Wave) (rest : List Wave),
      AddNewSectionsToTrackedWaves E (s :: rest) [] =
        s :: admittedWaves E rest [s]) ∧
    (∀ sections : List Wave,
      List.Pairwise (fun a b => ¬ InShadow (leftY E b) a) sections →
      AddNewSectionsToTrackedWaves E sections [] = sections) ∧
    (∀ sections : List Wave,
      AddNewSectionsToTrackedWaves E sections [] = sections →
      List.Pairwise (fun a b => ¬ InShadow (leftY E b) a) sections) := by
  refine ⟨fun _ => rfl, ?_, ?_, ?_⟩
  · intro s rest
    unfold AddNewSectionsToTrackedWaves
    rw [if_neg (by rw [willBeMerged_nil]; exact fun h => absurd h (by simp))]
    rw [addNew_eq_append]
    simp
  · intro sections hp
    simpa using addNew_all_kept E sections [] (by simp) hp
  · intro sections heq
    rw [addNew_eq_append] at heq
    simp only [List.nil_append] at heq
    exact pairwise_of_admitted_eq E sections [] heq

/-- Witness for C10 (amended): two non-overlapping demo candidates are
both admitted, in order, from an empty tracked vector, and the converse
direction recovers their pairwise non-overlap. -/
theorem C10_witness :
    AddNewSectionsToTrackedWaves extDemo [waveA, waveC] [] =
      [waveA, waveC] ∧
    List.Pairwise (fun a b => ¬ InShadow (leftY extDemo b) a)
      [waveA, waveC] := by
  have hp : List.Pairwise (fun a b => ¬ InShadow (leftY extDemo b) a)
      [waveA, waveC] := by
    simp [List.pairwise_cons, InShadow, leftY_extDemo, waveA, waveC,
      roiY0, roiY3]
  have h3 := (C10_empty_tracked_amended extDemo).2.2.1 [waveA, waveC] hp
  exact ⟨h3, (C10_empty_tracked_amended extDemo).2.2.2 [waveA, waveC] h3⟩

lemma keepContour_demo_false : KeepContour extDemo [⟨99, 50⟩] = false := by
  have h : ((99 : ℤ) : ℚ) < kMinArea := by norm_num [kMinArea]
  simp only [KeepContour, extDemo, List.getD_cons_zero]
  rw [if_pos h]

/-- Counterexample to C4 as stated: FilterAndConvert erases the rejected
contour [(99, 50)] (moment m00 = 99 < MIN_AREA under the demo kernels)
from the input contour vector, so the input is mutated. -/
theorem C4_counterexample :
    (FilterAndConvert extDemo [[⟨99, 50⟩]] [] 1 0).1 ≠
      [[(⟨99, 50⟩ : Point)]] := by
  simp [FilterAndConvert, keepContour_demo_false]

/-- C4 (amended).  FilterAndConvert does mutate its contour input:
rejected contours are erased, so after the call the contour vector holds
exactly the accepted contours in their original order (it is unchanged
only when every contour is accepted), while the wave vector receives the
converted candidates appended after its previous contents. -/
theorem C4_filter_mutates_input (E : Ext) (contours : List (List Point)) :
    ∀ (waves : List Wave) (frame_number idc : ℤ),
      (FilterAndConvert E contours waves frame_number idc).1 =
        contours.filter (KeepContour E) ∧
      ∃ tail, (FilterAndConvert E contours waves frame_number idc).2.1 =
        waves ++ tail := by
  induction contours with
  | nil =>
    intro waves fn idc
    exact ⟨rfl, [], by simp [FilterAndConvert]⟩
  | cons c rest ih =>
    intro waves fn idc
    by_cases hk : KeepContour E c
    · have h2 := ih (waves ++ [Wave.make E c fn (idc + 1)]) fn (idc + 1)
      refine ⟨?_, ?_⟩
      · simp [FilterAndConvert, hk, h2.1]
      · obtain ⟨tail, htail⟩ := h2.2
        exact ⟨Wave.make E c fn (idc + 1) :: tail,
          by simp [FilterAndConvert, hk, htail]⟩
    · simp only [Bool.not_eq_true] at hk
      have h2 := ih waves fn idc
      refine ⟨by simp [FilterAndConvert, hk, h2.1], ?_⟩
      obtain ⟨tail, htail⟩ := h2.2
      exact ⟨tail, by simp [FilterAndConvert, hk, htail]⟩

lemma imin_closed (mu11 mu20 mu02 denom : ℚ) (hdne : denom ≠ 0)
    (hsq : denom ^ 2 = (2 * mu11) ^ 2 + (mu20 - mu02) ^ 2) :
    (1 / 2) * (mu20 + mu02) -
        (1 / 2) * (mu20 - mu02) * ((mu20 - mu02) / denom) -
        mu11 * (2 * mu11 / denom) =
      (mu20 + mu02) / 2 - denom / 2 := by
  field_simp
  linear_combination (4 * denom) * hsq

lemma imax_closed (mu11 mu20 mu02 denom : ℚ) (hdne : denom ≠ 0)
    (hsq : denom ^ 2 = (2 * mu11) ^ 2 + (mu20 - mu02) ^ 2) :
    (1 / 2) * (mu20 + mu02) -
        (1 / 2) * (mu20 - mu02) * (-((mu20 - mu02) / denom)) -
        mu11 * (-(2 * mu11 / denom)) =
      (mu20 + mu02) / 2 + denom / 2 := by
  field_simp
  linear_combination (-4 * denom) * hsq

lemma keep_ratio_iff (m00 r : ℚ) (hm2 : kMinArea ≤ m00) :
    (if r < kMinInertiaRatio ∨ r ≥ kMaxInertiaRatio then false else true) =
        true ↔
      (kMinArea ≤ m00 ∧ kMinInertiaRatio ≤ r ∧ r < kMaxInertiaRatio) := by
  by_cases hcond : r < kMinInertiaRatio ∨ r ≥ kMaxInertiaRatio
  · rw [if_pos hcond]
    constructor
    · intro h; exact absurd h (by simp)
    · rintro ⟨-, h0, h1⟩
      rcases hcond with hc | hc
      · exact absurd h0 (not_le.mpr hc)
      · exact absurd h1 (not_lt.mpr hc)
  · rw [if_neg hcond]
    push_neg at hcond
    exact ⟨fun _ => ⟨hm2, hcond.1, hcond.2⟩, fun _ => rfl⟩

/-- C5.  The candidate filter: any contour with m00 < MIN_AREA is
rejected regardless of shape; and whenever the abstract square root is
exact on the discriminant (2·mu11)² + (mu20 − mu02)², KeepContour
accepts a contour exactly when m00 ≥ MIN_AREA and the inertia ratio —
i_min/i_max from the 2D second-moment eigen-decomposition when denom >
EPS, and 1 when denom ≤ EPS — lies in [MIN_INERTIA_RATIO,
MAX_INERTIA_RATIO). -/
theorem C5_keep_contour (E : Ext) (c : List Point) :
    ((E.momentsOf c).m00 < kMinArea → KeepContour E c = false) ∧
    ((E.sqrtD ((2 * (E.momentsOf c).mu11) ^ 2 +
          ((E.momentsOf c).mu20 - (E.momentsOf c).mu02) ^ 2)) ^ 2 =
        (2 * (E.momentsOf c).mu11) ^ 2 +
          ((E.momentsOf c).mu20 - (E.momentsOf c).mu02) ^ 2 →
      (KeepContour E c = true ↔ KeepContourSpec E c)) := by
  constructor
  · intro hm
    simp only [KeepContour]
    rw [if_pos hm]
  · intro hsq
    by_cases hm : (E.momentsOf c).m00 < kMinArea
    · constructor
      · intro ht
        simp only [KeepContour] at ht
        rw [if_pos hm] at ht
        exact absurd ht (by simp)
      · rintro ⟨hge, -, -⟩
        exact absurd hm (not_lt.mpr hge)
    · have hm2 : kMinArea ≤ (E.momentsOf c).m00 := not_lt.mp hm
      by_cases hd : E.sqrtD ((2 * (E.momentsOf c).mu11) ^ 2 +
          ((E.momentsOf c).mu20 - (E.momentsOf c).mu02) ^ 2) > kEps
      · have hdne : E.sqrtD ((2 * (E.momentsOf c).mu11) ^ 2 +
            ((E.momentsOf c).mu20 - (E.momentsOf c).mu02) ^ 2) ≠ 0 :=
          (lt_trans (by norm_num [kEps]) hd).ne.symm
        simp only [KeepContour, KeepContourSpec, inertiaRatioSpec]
        rw [if_neg hm, if_pos hd, if_pos hd,
            imin_closed _ _ _ _ hdne hsq, imax_closed _ _ _ _ hdne hsq]
        exact keep_ratio_iff _ _ hm2
      · simp only [KeepContour, KeepContourSpec, inertiaRatioSpec]
        rw [if_neg hm, if_neg hd, if_neg hd]
        have hc : (1 : ℚ) ≥ kMaxInertiaRatio := by norm_num [kMaxInertiaRatio]
        rw [if_pos (Or.inr hc)]
        constructor
        · intro h; exact absurd h (by simp)
        · rintro ⟨-, -, h1⟩
          exact absurd h1 (not_lt.mpr hc)

lemma keep_demo2_true : KeepContour extDemo2 [] = true := by
  norm_num [KeepContour, extDemo2, kMinArea, kEps, kMinInertiaRatio,
    kMaxInertiaRatio]

lemma sqrt_demo2 :
    (extDemo2.sqrtD ((2 * (extDemo2.momentsOf []).mu11) ^ 2 +
        ((extDemo2.momentsOf []).mu20 - (extDemo2.momentsOf []).mu02) ^ 2)) ^
        2 =
      (2 * (extDemo2.momentsOf []).mu11) ^ 2 +
        ((extDemo2.momentsOf []).mu20 - (extDemo2.momentsOf []).mu02) ^ 2 := by
  norm_num [extDemo2]

/-- Witness for C5: under the demo kernels (m00 = 100, mu20 = 1, exact
square root) the accepted contour also satisfies the spec-side
predicate. -/
theorem C5_witness : KeepContourSpec extDemo2 [] :=
  ((C5_keep_contour extDemo2 []).2 sqrt_demo2).mp keep_demo2_true

lemma sortDesc_two_of_lt (a b : Wave) (hb : a.birth_ < b.birth_) :
    List.insertionSort CompareAgeDesc [a, b] = [b, a] ∧
    List.insertionSort CompareAgeDesc [b, a] = [b, a] := by
  constructor
  · simp [List.insertionSort, List.orderedInsert, CompareAgeDesc,
      not_le.mpr hb]
  · simp [List.insertionSort, List.orderedInsert, CompareAgeDesc,
      le_of_lt hb]

lemma dedupLoop_two (E : Ext) (y o : Wave)
    (hsh : InShadow (leftY E y) o) :
    removeDupsLoop E [y, o] 0 = [o] := by
  have h1 : firstShadow (leftY E y) [y, o] 1 = some 1 := by
    rw [firstShadow]
    simp [hsh]
  rw [removeDupsLoop]
  simp only [List.length_cons, List.length_nil]
  rw [dif_pos (by omega : 0 < 0 + 1 + 1)]
  simp only [List.get, h1, List.eraseIdx]
  rw [removeDupsLoop]
  simp

lemma sortAsc_single (a : Wave) :
    List.insertionSort CompareAgeAsc [a] = [a] := by
  simp [List.insertionSort, List.orderedInsert]

/-- C2.  Duplicate resolution on two entities with distinct birth frames
whose ROIs overlap (the younger's left-edge projection lies in the
older's ROI span): the strictly older survives and the strictly younger
is removed, for either input ordering; and the output of
RemoveDuplicateWaves is always sorted ascending by birth. -/
theorem C2_duplicate_resolution (E : Ext) (wOld wYoung : Wave)
    (hb : wOld.birth_ < wYoung.birth_)
    (hsh : InShadow (leftY E wYoung) wOld) :
    (RemoveDuplicateWaves E [wOld, wYoung] = [wOld] ∧
     RemoveDuplicateWaves E [wYoung, wOld] = [wOld]) ∧
    ∀ ws : List Wave,
      List.Sorted CompareAgeAsc (RemoveDuplicateWaves E ws) := by
  have hsort := sortDesc_two_of_lt wOld wYoung hb
  have hloop := dedupLoop_two E wYoung wOld hsh
  refine ⟨⟨?_, ?_⟩, ?_⟩
  · unfold RemoveDuplicateWaves
    rw [hsort.1, hloop, sortAsc_single]
  · unfold RemoveDuplicateWaves
    rw [hsort.2, hloop, sortAsc_single]
  · intro ws
    unfold RemoveDuplicateWaves
    exact List.sorted_insertionSort CompareAgeAsc _

/-- Witness for C2: the demo waves born at frames 2 and 7 with
overlapping ROIs resolve to the older wave from both orderings. -/
theorem C2_witness :
    RemoveDuplicateWaves extDemo [waveA, waveB] = [waveA] ∧
    RemoveDuplicateWaves extDemo [waveB, waveA] = [waveA] :=
  (C2_duplicate_resolution extDemo waveA waveB (by decide) inShadow_BA).1

lemma mem_removeDupsLoop (E : Ext) :
    ∀ (n : Nat) (ws : List Wave) (i : Nat), ws.length - i ≤ n →
      ∀ x ∈ removeDupsLoop E ws i, x ∈ ws := by
  intro n
  induction n with
  | zero =>
    intro ws i hn x hx
    rw [removeDupsLoop, dif_neg (by omega)] at hx
    exact hx
  | succ n ih =>
    intro ws i hn x hx
    rw [removeDupsLoop] at hx
    by_cases hi : i < ws.length
    · rw [dif_pos hi] at hx
      cases hfs : firstShadow (leftY E (ws.get ⟨i, hi⟩)) ws (i + 1) with
      | none =>
        rw [hfs] at hx
        exact ih ws (i + 1) (by omega) x hx
      | some j =>
        rw [hfs] at hx
        have hlen := List.length_eraseIdx_add_one hi
        have hx2 := ih (ws.eraseIdx i) _ (by split <;> omega) x hx
        exact (List.eraseIdx_sublist ws i).subset hx2
    · rw [dif_neg hi] at hx
      exact hx

lemma mem_removeDuplicateWaves (E : Ext) (ws : List Wave) (x : Wave)
    (hx : x ∈ RemoveDuplicateWaves E ws) : x ∈ ws := by
  unfold RemoveDuplicateWaves at hx
  have h1 := (List.perm_insertionSort CompareAgeAsc _).mem_iff.mp hx
  have h2 := mem_removeDupsLoop E
    (List.insertionSort CompareAgeDesc ws).length _ 0 (by omega) x h1
  exact (List.perm_insertionSort CompareAgeDesc ws).mem_iff.mp h2

lemma trackWaveStep_death_cases (E : Ext) (st : Step) (w : Wave) :
    (trackWaveStep E st w).death_ = st.frame_number ∨
    (trackWaveStep E st w).death_ = w.death_ := by
  simp only [trackWaveStep, death_update_recognized, death_update_mass,
    death_update_displacement, death_update_boundingbox,
    death_update_centroid]
  unfold killIfLast
  split
  · left; rfl
  · unfold Wave.update_death
    split
    · left; rfl
    · right; rfl

/-- C3.  Death handling across one driver iteration (TrackWaves,
RemoveDeadWaves, RemoveDuplicateWaves, admission): every wave still
tracked after the iteration has death_ = -1 — a wave whose death_ was
set is removed from the live set by the very next RemoveDeadWaves — the
archive only grows, by dead recognized waves; and a per-wave update
cycle never moves a set death_ back to -1 (it writes only the current
frame number). -/
theorem C3_death_sticky (E : Ext) (ptsOf : Wave → List Point)
    (sections : List Wave) (frame_number number_of_frames : ℤ)
    (tracked recs : List Wave)
    (hs : ∀ s ∈ sections, s.death_ = -1) :
    (∀ w ∈ (ProcessFrame E ptsOf sections frame_number number_of_frames
        tracked recs).1, w.death_ = -1) ∧
    (∃ extra,
      (ProcessFrame E ptsOf sections frame_number number_of_frames
        tracked recs).2 = recs ++ extra ∧
      ∀ w ∈ extra, w.death_ ≠ -1 ∧ w.recognized_ = true) ∧
    (∀ (st : Step) (w : Wave), st.frame_number ≠ -1 → w.death_ ≠ -1 →
      (trackWaveStep E st w).death_ ≠ -1) := by
  simp only [ProcessFrame, removeDeadWaves_eq]
  refine ⟨?_, ?_, ?_⟩
  · intro w hw
    have hmem :
        w ∈ RemoveDuplicateWaves E
            ((TrackWaves E ptsOf frame_number number_of_frames
              tracked).filter (fun v => v.death_ = -1)) ∨
        w ∈ sections := by
      by_cases hlast : frame_number < number_of_frames
      · rw [if_pos hlast, addNew_eq_append] at hw
        rcases List.mem_append.mp hw with h | h
        · exact Or.inl h
        · exact Or.inr ((admitted_sublist E sections _).subset h)
      · rw [if_neg hlast] at hw
        exact Or.inl hw
    rcases hmem with h | h
    · have h2 := mem_removeDuplicateWaves E _ w h
      have h3 := List.mem_filter.mp h2
      exact of_decide_eq_true h3.2
    · exact hs w h
  · refine ⟨(TrackWaves E ptsOf frame_number number_of_frames
        tracked).filter (fun v => v.death_ ≠ -1 && v.recognized_),
      rfl, ?_⟩
    intro w hw
    have h2 := (List.mem_filter.mp hw).2
    rw [Bool.and_eq_true] at h2
    exact ⟨of_decide_eq_true h2.1, h2.2⟩
  · intro st w h1 h2
    rcases trackWaveStep_death_cases E st w with h | h <;> rw [h]
    · exact h1
    · exact h2

/-- Witness for C3: one driver iteration with a live section and an
update cycle on an already-dead wave. -/
theorem C3_witness :
    (trackWaveStep extDemo stepDemo { waveA with death_ := 5 }).death_ ≠
      -1 :=
  (C3_death_sticky extDemo (fun _ => []) [waveC] 5 100 [waveA] []
      (by simp [waveC])).2.2 stepDemo { waveA with death_ := 5 }
    (by decide) (by decide)

end MWT
